import Mathlib

set_option maxRecDepth 20000

/-!
Verification development for the streaming speech-output core of the voice
service: the incremental `StreamingSentencizer` and one-shot
`split_into_sentences` (src/voice/build/lib/src/sentencizer.py), the stateful
`TTSMarkdownFilter` (src/voice/src/markdown_filter.py), and the per-session
synthesis orchestration `VoiceSession.handle_synthesize`
(src/voice/build/lib/src/server.py).

Text is modelled as `List Char`.  Python whitespace tests (`str.strip`,
`\s`) are modelled with `Char.isWhitespace` (space, tab, CR, LF) — an ASCII
approximation adequate for the inputs considered here.  Python regular
expressions are translated into bespoke deterministic scanners: each regex
used by the source has character-class-delimited groups, so matching is
deterministic and the scanners below reproduce `re.sub`/`re.finditer`
semantics (leftmost, non-overlapping, greedy) directly.
-/

/-- Whitespace test backing the Python `strip`/`lstrip` translations. -/
def isWS (c : Char) : Bool := c.isWhitespace

/-- Python `str.lstrip()`: drop leading whitespace. -/
def lstrip (l : List Char) : List Char := l.dropWhile isWS

/-- Python trailing-whitespace strip (right half of `str.strip()`). -/
def rstrip (l : List Char) : List Char := (l.reverse.dropWhile isWS).reverse

/-- Python `str.strip()`. -/
def strip (l : List Char) : List Char := rstrip (lstrip l)

/-- Proposition: every character of the list is whitespace. -/
def IsWSl (l : List Char) : Prop := ∀ c ∈ l, isWS c = true

instance (l : List Char) : Decidable (IsWSl l) :=
  List.decidableBAll (fun c => isWS c = true) l

/-! ## Sentencizer (src/voice/build/lib/src/sentencizer.py) -/

/-- `StreamingSentencizer.SENTENCE_ENDINGS` (sentencizer.py line 15). -/
def SENTENCE_ENDINGS : List Char := ['.', '!', '?']

/-- `StreamingSentencizer.CLAUSE_ENDINGS` (sentencizer.py line 18). -/
def CLAUSE_ENDINGS : List Char := [',', ':', ';', '—', '–']

/-- `StreamingSentencizer.ABBREVIATIONS` (sentencizer.py lines 21-29),
a Python set; only membership is ever used, so list order is irrelevant. -/
def ABBREVIATIONS : List (List Char) :=
  ["mr.".data, "mrs.".data, "ms.".data, "dr.".data, "prof.".data, "sr.".data,
   "jr.".data, "vs.".data, "etc.".data, "e.g.".data, "i.e.".data, "no.".data,
   "nos.".data, "st.".data, "ave.".data, "blvd.".data, "rd.".data, "apt.".data,
   "dept.".data, "inc.".data, "ltd.".data, "corp.".data, "co.".data,
   "a.m.".data, "p.m.".data, "a.d.".data, "b.c.".data, "ph.d.".data,
   "m.d.".data, "b.a.".data, "m.a.".data, "u.s.".data, "u.k.".data,
   "u.n.".data]

/-- State of a `StreamingSentencizer` instance: the three constructor
parameters (sentencizer.py lines 31-46) plus the mutable `_buffer`. -/
structure StreamingSentencizer where
  min_sentence_length : Nat
  min_clause_length : Nat
  max_buffer_length : Nat
  buffer : List Char
deriving Repr, DecidableEq

/-- Fresh instance with the constructor's default configuration
(`min_sentence_length=10`, `min_clause_length=30`, `max_buffer_length=500`). -/
def sentencizerDefault : StreamingSentencizer :=
  ⟨10, 30, 500, []⟩

/-- `StreamingSentencizer._is_abbreviation` (lines 49-55):
`text.lower().strip()` ends with some table entry. -/
def is_abbreviation (text : List Char) : Bool :=
  let tl := strip (text.map Char.toLower)
  ABBREVIATIONS.any (fun a => a.isSuffixOf tl)

/-- `StreamingSentencizer._is_sentence_end` (lines 57-69). -/
def is_sentence_end (char : Char) (buffer : List Char) : Bool :=
  if ¬ (char ∈ SENTENCE_ENDINGS) then false
  else if is_abbreviation (buffer ++ [char]) then false
  else if char = '.' ∧ (∃ d, buffer.getLast? = some d ∧ d.isDigit) then false
  else true

/-- Backward scan of `_find_sentence_boundary` (lines 71-76): check index
`i` (via `getD`; every probed index is in range) and walk down to 0. -/
def findSentFrom (text : List Char) : Nat → Option Nat
  | 0 => if is_sentence_end (text.getD 0 ' ') (text.take 0) then some 1 else none
  | i + 1 =>
    if is_sentence_end (text.getD (i + 1) ' ') (text.take (i + 1)) then some (i + 2)
    else findSentFrom text i

/-- `StreamingSentencizer._find_sentence_boundary` (lines 71-76). -/
def find_sentence_boundary (text : List Char) : Option Nat :=
  match text.length with
  | 0 => none
  | n + 1 => findSentFrom text n

/-- Backward scan of `_find_clause_boundary` (lines 78-86). -/
def findClauseFrom (text : List Char) : Nat → Option Nat
  | 0 =>
    if decide (text.getD 0 ' ' ∈ CLAUSE_ENDINGS) &&
        ((decide (1 < text.length) && decide (text.getD 1 'x' = ' ')) || decide (1 = text.length))
    then some 1 else none
  | i + 1 =>
    if decide (text.getD (i + 1) ' ' ∈ CLAUSE_ENDINGS) &&
        ((decide (i + 2 < text.length) && decide (text.getD (i + 2) 'x' = ' ')) ||
          decide (i + 2 = text.length))
    then some (i + 2) else findClauseFrom text i

/-- `StreamingSentencizer._find_clause_boundary` (lines 78-86). -/
def find_clause_boundary (text : List Char) : Option Nat :=
  match text.length with
  | 0 => none
  | n + 1 => findClauseFrom text n

/-- Index of the last occurrence of a space in the list, if any. -/
def lastSpaceIdx : List Char → Option Nat
  | [] => none
  | c :: rest =>
    match lastSpaceIdx rest with
    | some j => some (j + 1)
    | none => if c = ' ' then some 0 else none

/-- Python `buffer.rfind(' ', 0, stop)` (sentencizer.py line 117): index of
the last space strictly below `stop`; `none` models Python's `-1`. -/
def rfind_space (text : List Char) (stop : Nat) : Option Nat :=
  lastSpaceIdx (text.take stop)

/-- Boundary extraction shared by all three yielding branches of `add_token`
(lines 103-104, 111-112, 119-120): return `buffer[:b].strip()` and retain
`buffer[b:].lstrip()`. -/
def extractAt (s : StreamingSentencizer) (buffer : List Char) (b : Nat) :
    Option (List Char) × StreamingSentencizer :=
  (some (strip (buffer.take b)), { s with buffer := lstrip (buffer.drop b) })

/-- Force-yield fallthrough of `add_token` (lines 115-123): if the buffer
exceeds `max_buffer_length`, split at the last space before the limit
provided that split point is strictly greater than `min_sentence_length`
(Python: `last_space > self.min_sentence_length`, where `rfind`'s "-1" can
never pass the test). -/
def add_token_force (s : StreamingSentencizer) (buffer : List Char) :
    Option (List Char) × StreamingSentencizer :=
  if s.max_buffer_length < buffer.length then
    match rfind_space buffer s.max_buffer_length with
    | some p =>
      if s.min_sentence_length < p then extractAt s buffer p
      else (none, { s with buffer := buffer })
    | none => (none, { s with buffer := buffer })
  else (none, { s with buffer := buffer })

/-- Clause-boundary fallthrough of `add_token` (lines 107-113): Python's
`if clause_boundary and clause_boundary >= self.min_clause_length` (truthiness
of the optional plus the length test). -/
def add_token_clause (s : StreamingSentencizer) (buffer : List Char) :
    Option (List Char) × StreamingSentencizer :=
  if s.min_clause_length ≤ buffer.length then
    match find_clause_boundary buffer with
    | some cb =>
      if 0 < cb ∧ s.min_clause_length ≤ cb then extractAt s buffer cb
      else add_token_force s buffer
    | none => add_token_force s buffer
  else add_token_force s buffer

/-- `StreamingSentencizer.add_token` (lines 88-123).  The token is appended
to the buffer; then, in strict priority order: sentence boundary, clause
boundary, forced split, else absorb. -/
def add_token (s : StreamingSentencizer) (token : List Char) :
    Option (List Char) × StreamingSentencizer :=
  let buffer := s.buffer ++ token
  match find_sentence_boundary buffer with
  | some b =>
    if 0 < b ∧ s.min_sentence_length ≤ b then extractAt s buffer b
    else add_token_clause s buffer
  | none => add_token_clause s buffer

/-- `StreamingSentencizer.flush` (lines 125-131).  Note the buffer is
cleared only when the stripped remainder is non-empty, exactly as in the
source. -/
def flush (s : StreamingSentencizer) : Option (List Char) × StreamingSentencizer :=
  if strip s.buffer ≠ [] then (some (strip s.buffer), { s with buffer := [] })
  else (none, s)

/-- `StreamingSentencizer.reset` (lines 133-135). -/
def sentencizer_reset (s : StreamingSentencizer) : StreamingSentencizer :=
  { s with buffer := [] }

/-- Feed a list of tokens one by one, collecting the yielded units in order
and returning the final sentencizer state. -/
def runTokens (s : StreamingSentencizer) :
    List (List Char) → List (List Char) × StreamingSentencizer
  | [] => ([], s)
  | t :: ts =>
    let r := add_token s t
    let rest := runTokens r.2 ts
    ((match r.1 with | some u => [u] | none => []) ++ rest.1, rest.2)

/-- All units yielded by feeding `tokens` one by one and then calling
`flush()` once. -/
def allUnits (s : StreamingSentencizer) (tokens : List (List Char)) :
    List (List Char) :=
  let r := runTokens s tokens
  r.1 ++ (match (flush r.2).1 with | some u => [u] | none => [])

example : (add_token sentencizerDefault "Dr".data).1 = none := by decide

example :
    (add_token ((add_token sentencizerDefault "Dr".data).2) ".".data).1 = none := by
  decide

example :
    (add_token ((add_token ((add_token sentencizerDefault "Dr".data).2) ".".data).2)
      " Smith arrived.".data).1 = some "Dr. Smith arrived.".data := by decide

example :
    (add_token sentencizerDefault "the value is 3.14 exactly.".data).1 =
      some "the value is 3.14 exactly.".data := by decide

example : (add_token ⟨3, 100, 10, []⟩ "abc defghijklmno".data).1 = none := by decide

example :
    (add_token ⟨2, 100, 10, []⟩ "ab cd ef gh ij kl mn op qr st".data).2.buffer.length
      = 20 := by decide

/-! ## One-shot sentence split (sentencizer.py lines 138-149)

`re.split(r'(?<=[.!?])\s+', text)`: the separator is a maximal whitespace
run whose first character is immediately preceded by one of `. ! ?`.  The
two mutually recursive scanners below walk the text once: `splitPiece`
accumulates the current piece (tracking the previous character for the
lookbehind), `splitSkip` greedily consumes a separator run. -/

mutual

def splitPiece (acc : List Char) (prev : Char) : List Char → List (List Char)
  | [] => [acc.reverse]
  | c :: rest =>
    if isWS c && decide (prev ∈ SENTENCE_ENDINGS) then acc.reverse :: splitSkip rest
    else splitPiece (c :: acc) c rest

def splitSkip : List Char → List (List Char)
  | [] => [[]]
  | c :: rest => if isWS c then splitSkip rest else splitPiece [c] c rest

end

/-- `split_into_sentences` (sentencizer.py lines 138-149): split at the
regex separators, then keep the stripped pieces that are non-empty. -/
def split_into_sentences (text : List Char) : List (List Char) :=
  (splitPiece [] ' ' text).filterMap
    (fun s => if strip s = [] then none else some (strip s))

example :
    split_into_sentences "Hi there. Ok!  Done.".data =
      ["Hi there.".data, "Ok!".data, "Done.".data] := by decide

example : split_into_sentences "   ".data = [] := by decide

/-! ## Markdown filter (src/voice/src/markdown_filter.py) -/

/-- Mutable state of a `TTSMarkdownFilter` (markdown_filter.py lines 18-23). -/
structure FilterState where
  in_code_block : Bool
  in_mermaid : Bool
  code_block_announced : Bool
  pending_backticks : List Char
deriving Repr, DecidableEq

/-- State after `__init__` / `reset` (markdown_filter.py lines 18-30). -/
def filterReset : FilterState := ⟨false, false, false, []⟩

/-- The announcement string for mermaid blocks (line 112). -/
def diagramAnnouncement : List Char := "Here".data ++ '\'' :: "s a diagram.".data

/-- The announcement string for other code blocks (line 114). -/
def snippetAnnouncement : List Char :=
  "Here".data ++ '\'' :: "s a code snippet.".data

/-- Python regex `\w` (ASCII range). -/
def isWordChar (c : Char) : Bool := c.isAlphanum || c = '_'

/-- Head-of-list whitespace test, used to translate `\s+` requirements. -/
def headIsWS (l : List Char) : Bool :=
  match l with
  | c :: _ => isWS c
  | [] => false

/-- Matcher for `!\[([^\]]*)\]\([^)]+\)` at the head of the list; returns
the alt text and the remainder after the match. -/
def matchImage : List Char → Option (List Char × List Char)
  | '!' :: '[' :: rest =>
    let alt := rest.takeWhile (· ≠ ']')
    match rest.dropWhile (· ≠ ']') with
    | ']' :: '(' :: rest2 =>
      let url := rest2.takeWhile (· ≠ ')')
      if url = [] then none
      else
        match rest2.dropWhile (· ≠ ')') with
        | ')' :: rest3 => some (alt, rest3)
        | _ => none
    | _ => none
  | _ => none

/-- `re.sub(r'!\[([^\]]*)\]\([^)]+\)', r'Here is an image: \1.', text)`
(markdown_filter.py line 153). -/
def subImage : Nat → List Char → List Char
  | 0, l => l
  | _ + 1, [] => []
  | fuel + 1, c :: rest =>
    match matchImage (c :: rest) with
    | some (alt, after) =>
      "Here is an image: ".data ++ alt ++ '.' :: subImage fuel after
    | none => c :: subImage fuel rest

/-- Matcher for `\[([^\]]+)\]\([^)]+\)` at the head of the list. -/
def matchLink : List Char → Option (List Char × List Char)
  | '[' :: rest =>
    let txt := rest.takeWhile (· ≠ ']')
    if txt = [] then none
    else
      match rest.dropWhile (· ≠ ']') with
      | ']' :: '(' :: rest2 =>
        let url := rest2.takeWhile (· ≠ ')')
        if url = [] then none
        else
          match rest2.dropWhile (· ≠ ')') with
          | ')' :: rest3 => some (txt, rest3)
          | _ => none
      | _ => none
  | _ => none

/-- `re.sub(r'\[([^\]]+)\]\([^)]+\)', r'\1', text)` (line 156). -/
def subLink : Nat → List Char → List Char
  | 0, l => l
  | _ + 1, [] => []
  | fuel + 1, c :: rest =>
    match matchLink (c :: rest) with
    | some (txt, after) => txt ++ subLink fuel after
    | none => c :: subLink fuel rest

/-- Backtick pass with the left character tracked for the lookbehind:
`re.sub(r'(?<!`)`(?!`)([^`]+)`(?!`)', r'\1', text)` (line 159). -/
def subInlineCode : Nat → Option Char → List Char → List Char
  | 0, _, l => l
  | _ + 1, _, [] => []
  | fuel + 1, prev, '`' :: rest =>
    let content := rest.takeWhile (· ≠ '`')
    if prev ≠ some '`' ∧ content ≠ [] then
      match rest.dropWhile (· ≠ '`') with
      | '`' :: rest2 =>
        if rest2.head? = some '`' then '`' :: subInlineCode fuel (some '`') rest
        else content ++ subInlineCode fuel (some '`') rest2
      | _ => '`' :: subInlineCode fuel (some '`') rest
    else '`' :: subInlineCode fuel (some '`') rest
  | fuel + 1, _, c :: rest => c :: subInlineCode fuel (some c) rest

/-- Matcher for `dd([^d]+)dd` at the head of the list (bold `**`/`__` and
strikethrough `~~`). -/
def matchDelim2 (d : Char) : List Char → Option (List Char × List Char)
  | a :: b :: rest =>
    if a = d ∧ b = d then
      let content := rest.takeWhile (· ≠ d)
      if content = [] then none
      else
        match rest.dropWhile (· ≠ d) with
        | x :: y :: rest2 => if x = d ∧ y = d then some (content, rest2) else none
        | _ => none
    else none
  | _ => none

/-- `re.sub` for `\*\*([^*]+)\*\*`, `__([^_]+)__`, `~~([^~]+)~~`
(lines 162, 163, 170). -/
def subDelim2 (d : Char) : Nat → List Char → List Char
  | 0, l => l
  | _ + 1, [] => []
  | fuel + 1, c :: rest =>
    match matchDelim2 d (c :: rest) with
    | some (content, after) => content ++ subDelim2 d fuel after
    | none => c :: subDelim2 d fuel rest

/-- Word-character test on an optional character (absent means start or
end of string, where the `\w` lookarounds are vacuously satisfied). -/
def optIsWord (o : Option Char) : Bool :=
  match o with
  | some p => isWordChar p
  | none => false

/-- Italic pass `(?<!\w)d([^d]+)d(?!\w)` for `d` in `* _` (lines 166-167),
tracking the previous character for the lookbehind. -/
def subItalic (d : Char) : Nat → Option Char → List Char → List Char
  | 0, _, l => l
  | _ + 1, _, [] => []
  | fuel + 1, prev, c :: rest =>
    if c = d ∧ optIsWord prev = false then
      let content := rest.takeWhile (· ≠ d)
      if content = [] then c :: subItalic d fuel (some c) rest
      else
        match rest.dropWhile (· ≠ d) with
        | _ :: rest2 =>
          if optIsWord rest2.head? then c :: subItalic d fuel (some c) rest
          else content ++ subItalic d fuel (some d) rest2
        | [] => c :: subItalic d fuel (some c) rest
    else c :: subItalic d fuel (some c) rest

/-- `re.sub(r'^#{1,6}\s+', '', text)` (line 173): anchored at the string
start only (no MULTILINE flag). -/
def stripHeadingStart (l : List Char) : List Char :=
  let hs := l.takeWhile (· = '#')
  if 1 ≤ hs.length ∧ hs.length ≤ 6 ∧ headIsWS (l.drop hs.length) then
    (l.drop hs.length).dropWhile isWS
  else l

/-- `re.sub(r'\n#{1,6}\s+', '\n', text)` (line 174). -/
def subNLHeading : Nat → List Char → List Char
  | 0, l => l
  | _ + 1, [] => []
  | fuel + 1, '\n' :: rest =>
    let hs := rest.takeWhile (· = '#')
    if 1 ≤ hs.length ∧ hs.length ≤ 6 ∧ headIsWS (rest.drop hs.length) then
      '\n' :: subNLHeading fuel ((rest.drop hs.length).dropWhile isWS)
    else '\n' :: subNLHeading fuel rest
  | fuel + 1, c :: rest => c :: subNLHeading fuel rest

/-- Bullet characters of `[\-\*\+]`. -/
def isBulletChar (c : Char) : Bool := c = '-' || c = '*' || c = '+'

/-- `re.sub(r'^[\-\*\+]\s+', '', text)` (line 177). -/
def stripBulletStart (l : List Char) : List Char :=
  match l with
  | c :: rest =>
    if isBulletChar c ∧ headIsWS rest then rest.dropWhile isWS else l
  | [] => l

/-- `re.sub(r'\n[\-\*\+]\s+', '\n', text)` (line 178). -/
def subNLBullet : Nat → List Char → List Char
  | 0, l => l
  | _ + 1, [] => []
  | fuel + 1, '\n' :: c :: rest =>
    if isBulletChar c ∧ headIsWS rest then
      '\n' :: subNLBullet fuel (rest.dropWhile isWS)
    else '\n' :: subNLBullet fuel (c :: rest)
  | fuel + 1, c :: rest => c :: subNLBullet fuel rest

/-- `re.sub(r'^\d+\.\s+', '', text)` (line 181). -/
def stripNumberedStart (l : List Char) : List Char :=
  let ds := l.takeWhile Char.isDigit
  if ds = [] then l
  else
    match l.drop ds.length with
    | '.' :: rest => if headIsWS rest then rest.dropWhile isWS else l
    | _ => l

/-- `re.sub(r'\n\d+\.\s+', '\n', text)` (line 182). -/
def subNLNumbered : Nat → List Char → List Char
  | 0, l => l
  | _ + 1, [] => []
  | fuel + 1, '\n' :: rest =>
    let ds := rest.takeWhile Char.isDigit
    if ds = [] then '\n' :: subNLNumbered fuel rest
    else
      match rest.drop ds.length with
      | '.' :: rest2 =>
        if headIsWS rest2 then '\n' :: subNLNumbered fuel (rest2.dropWhile isWS)
        else '\n' :: subNLNumbered fuel rest
      | _ => '\n' :: subNLNumbered fuel rest
  | fuel + 1, c :: rest => c :: subNLNumbered fuel rest

/-- `re.sub(r'^>\s*', '', text)` (line 185). -/
def stripBlockquoteStart (l : List Char) : List Char :=
  match l with
  | '>' :: rest => rest.dropWhile isWS
  | _ => l

/-- `re.sub(r'\n>\s*', '\n', text)` (line 186). -/
def subNLBlockquote : Nat → List Char → List Char
  | 0, l => l
  | _ + 1, [] => []
  | fuel + 1, '\n' :: '>' :: rest => '\n' :: subNLBlockquote fuel (rest.dropWhile isWS)
  | fuel + 1, c :: rest => c :: subNLBlockquote fuel rest

/-- Characters of `[\-\*_]`. -/
def isHRChar (c : Char) : Bool := c = '-' || c = '*' || c = '_'

/-- Index of the last newline in the list, if any. -/
def lastNLIdx : List Char → Option Nat
  | [] => none
  | c :: rest =>
    match lastNLIdx rest with
    | some j => some (j + 1)
    | none => if c = '\n' then some 0 else none

/-- `re.sub(r'^[\-\*_]{3,}\s*$', '', text, flags=re.MULTILINE)` (line 189).
At a line start, a run of three or more rule characters followed by greedy
`\s*` matches when the trailing `$` can land at end-of-string or just
before a newline; the greedy backtracking resolves to the last newline
inside the whitespace run (or the whole run at end-of-string).  The flag
argument tracks whether the scanner sits at a line start; after a match
ending before a newline, the line-start flag for that newline reflects the
character just before it. -/
def subHR : Nat → Bool → List Char → List Char
  | 0, _, l => l
  | _ + 1, _, [] => []
  | fuel + 1, atStart, c :: rest =>
    if atStart ∧ 3 ≤ ((c :: rest).takeWhile isHRChar).length then
      let run := (c :: rest).takeWhile isHRChar
      let after := (c :: rest).drop run.length
      let ws := after.takeWhile isWS
      let tail := after.drop ws.length
      if tail = [] then []
      else
        match lastNLIdx ws with
        | some m => subHR fuel ((ws.take m).getLast? = some '\n') (ws.drop m ++ tail)
        | none => c :: subHR fuel (c = '\n') rest
    else c :: subHR fuel (c = '\n') rest

/-- `re.sub(r'\s+', ' ', text)` (line 192). -/
def subWScollapse : Nat → List Char → List Char
  | 0, l => l
  | _ + 1, [] => []
  | fuel + 1, c :: rest =>
    if isWS c then ' ' :: subWScollapse fuel (rest.dropWhile isWS)
    else c :: subWScollapse fuel rest

/-- `TTSMarkdownFilter._filter_inline_markdown` (markdown_filter.py lines
150-194): the substitutions applied in source order, then a final strip.
Every scanner consumes at least one character per step, so fuel
`length + 1` never runs out. -/
def filter_inline_markdown (text : List Char) : List Char :=
  let t1 := subImage (text.length + 1) text
  let t2 := subLink (t1.length + 1) t1
  let t3 := subInlineCode (t2.length + 1) none t2
  let t4 := subDelim2 '*' (t3.length + 1) t3
  let t5 := subDelim2 '_' (t4.length + 1) t4
  let t6 := subItalic '*' (t5.length + 1) none t5
  let t7 := subItalic '_' (t6.length + 1) none t6
  let t8 := subDelim2 '~' (t7.length + 1) t7
  let t9 := stripHeadingStart t8
  let t10 := subNLHeading (t9.length + 1) t9
  let t11 := stripBulletStart t10
  let t12 := subNLBullet (t11.length + 1) t11
  let t13 := stripNumberedStart t12
  let t14 := subNLNumbered (t13.length + 1) t13
  let t15 := stripBlockquoteStart t14
  let t16 := subNLBlockquote (t15.length + 1) t15
  let t17 := subHR (t16.length + 1) true t16
  let t18 := subWScollapse (t17.length + 1) t17
  strip t18

/-- Fueled scanner for `re.finditer(r'```(\w*)', text)` (markdown_filter.py
lines 88-95): returns the list of matches as (text before the fence,
language tag) pairs together with the text after the last fence.  Each
step consumes at least one character, so fuel `length + 1` suffices. -/
def fenceSplitF : Nat → List Char → List (List Char × List Char) × List Char
  | 0, l => ([], l)
  | _ + 1, [] => ([], [])
  | fuel + 1, '`' :: '`' :: '`' :: rest =>
    let lang := rest.takeWhile isWordChar
    let r := fenceSplitF fuel (rest.dropWhile isWordChar)
    (([], lang) :: r.1, r.2)
  | fuel + 1, c :: rest =>
    let r := fenceSplitF fuel rest
    match r.1 with
    | [] => ([], c :: r.2)
    | (b, lg) :: s => ((c :: b, lg) :: s, r.2)

/-- Fence decomposition of a chunk. -/
def fenceSplit (text : List Char) : List (List Char × List Char) × List Char :=
  fenceSplitF (text.length + 1) text

/-- The per-fence loop of `_handle_code_blocks` (markdown_filter.py lines
95-122), folded over the fence list: accumulates `parts`, the
`announcement` local (a later assignment overwrites an earlier one, as in
the source), and the mutated flags.  `was_in` is the `was_in_code_block`
snapshot taken at the top of the call: text preceding a fence is captured
only when entering a block and only if the call did not start inside one. -/
def handleFences (was_in : Bool) :
    FilterState → List (List Char × List Char) →
      List (List Char) × Option (List Char) × FilterState
  | st, [] => ([], none, st)
  | st, (before, lang) :: rest =>
    if st.in_code_block = false then
      let parts0 : List (List Char) :=
        if was_in = false then
          (if strip before = [] then [] else [strip before])
        else []
      let mermaid := lang.map Char.toLower = "mermaid".data
      let ann : Option (List Char) :=
        if st.code_block_announced = false then
          some (if mermaid then diagramAnnouncement else snippetAnnouncement)
        else none
      let st' : FilterState :=
        { st with in_code_block := true, in_mermaid := mermaid,
                  code_block_announced := true }
      let r := handleFences was_in st' rest
      (parts0 ++ r.1, (match r.2.1 with | some a => some a | none => ann), r.2.2)
    else
      let st' : FilterState :=
        { st with in_code_block := false, in_mermaid := false,
                  code_block_announced := false }
      handleFences was_in st' rest

/-- `TTSMarkdownFilter._handle_code_blocks` (markdown_filter.py lines
71-148).  Steps: hold back a trailing run of 1-2 backticks as
`pending_backticks` (lines 76-85; with `endswith('```')` excluded the run
length is 1 or 2, so the source's `trailing < 3` test is always true);
process all fences; capture text after the last fence when not inside a
block (lines 124-128); resolve the result (lines 130-148). -/
def handle_code_blocks (st0 : FilterState) (text0 : List Char) :
    Option (List Char) × FilterState :=
  let was_in := st0.in_code_block
  let tr := (text0.reverse.takeWhile (· = '`')).length
  let holdBack := 0 < tr ∧ tr < 3
  let st1 : FilterState :=
    if holdBack then { st0 with pending_backticks := text0.drop (text0.length - tr) }
    else st0
  let text := if holdBack then text0.take (text0.length - tr) else text0
  let fs := fenceSplit text
  let hf := handleFences was_in st1 fs.1
  let ann := hf.2.1
  let st2 := hf.2.2
  let parts :=
    if fs.2 ≠ [] ∧ strip fs.2 ≠ [] ∧ st2.in_code_block = false
    then hf.1 ++ [strip fs.2] else hf.1
  let res : Option (List Char) :=
    if was_in ∧ fs.1 = [] then none
    else if was_in ∧ fs.1 ≠ [] ∧ parts = [] ∧ ann = none then none
    else
      match ann, parts with
      | some a, [] => some a
      | _, _ =>
        if parts ≠ [] then
          let r := List.intercalate [' '] parts
          some (match ann with | some a => a ++ ' ' :: r | none => r)
        else if st2.in_code_block then none
        else some text
  (res, st2)

/-- `TTSMarkdownFilter.filter_for_tts` (markdown_filter.py lines 32-69):
empty chunk is skipped unchanged; pending backticks from the previous
chunk are prepended and cleared; code fences are processed; while inside
a code block the chunk is suppressed; otherwise inline markdown is
stripped and the trimmed remainder (if any) returned. -/
def filter_for_tts (st : FilterState) (text0 : List Char) :
    Option (List Char) × FilterState :=
  if text0 = [] then (none, st)
  else
    let pp :=
      if st.pending_backticks ≠ [] then
        (st.pending_backticks ++ text0, { st with pending_backticks := ([] : List Char) })
      else (text0, st)
    let hc := handle_code_blocks pp.2 pp.1
    let res : Option (List Char) :=
      match hc.1 with
      | none => none
      | some t =>
        if hc.2.in_code_block then none
        else
          let t2 := strip (filter_inline_markdown t)
          if t2 = [] then none else some t2
    (res, hc.2)

/-- Fold a sequence of `filter_for_tts` calls over the filter state,
starting from a given state. -/
def applyCalls (st : FilterState) : List (List Char) → FilterState
  | [] => st
  | t :: ts => applyCalls (filter_for_tts st t).2 ts

example :
    filter_for_tts filterReset "plain text".data =
      (some "plain text".data, filterReset) := by decide

example :
    (filter_for_tts filterReset "Explanation: ```python".data).1 = none := by decide

example :
    (filter_for_tts filterReset "Explanation: ```python".data).2 =
      ⟨true, false, true, []⟩ := by decide

example :
    (filter_for_tts (⟨true, false, true, []⟩ : FilterState)
        "print(1)\n``` done".data).1 = some "done".data := by decide

example :
    (filter_for_tts (⟨true, false, true, []⟩ : FilterState)
        "print(1)\n``` done".data).2 = filterReset := by decide

example :
    (filter_for_tts filterReset "a ```mermaid".data).1 = none ∧
      (filter_for_tts filterReset "Look: ```x``` ok".data).1 =
        some (snippetAnnouncement ++ " Look: ok".data) := by decide

/-! ## Session orchestrator (src/voice/build/lib/src/server.py)

`VoiceSession.handle_synthesize` (lines 168-253) runs on a cooperative
event loop.  Its environment is modelled explicitly:

* outbound `send_json` calls and the wake-word detector signals become an
  ordered list of `VAction`s (`send_json` swallows its own transport errors,
  so sending never raises);
* the external TTS engine is an oracle `tts : Nat → TTSOutcome` giving, for
  the unit at each index of the sentence list, either an audio segment size
  or an engine exception (the only raising operation inside the `try`);
* a `stop_speaking` message handled at an await point (server.py lines
  133-135 set `self._speaking = False`) is modelled by a schedule
  `stops : Nat → Bool`: when `stops i` is true the speaking flag has been
  cleared by the time the per-unit checkpoint for unit `i` (line 211) reads
  it.  Nothing inside the loop ever sets the flag back to true, matching
  the source. -/

/-- Outcome of one `tts.synthesize_async` call: an audio segment with the
given number of samples, or an engine exception. -/
inductive TTSOutcome where
  | ok (size : Nat)
  | exn
deriving Repr, DecidableEq

/-- Session state relevant to `handle_synthesize`: the TTS toggles, the
speaking flag, the current message id, and the per-session markdown filter
and sentencizer (server.py lines 42-49).  Message ids are modelled as
`Option Nat` (`message.get("messageId")` may be absent). -/
structure Session where
  tts_enabled : Bool
  tts_muted : Bool
  speaking : Bool
  current_message_id : Option Nat
  markdown_filter : FilterState
  sentencizer : StreamingSentencizer
deriving Repr, DecidableEq

/-- Observable effects of the synthesis flow, in emission order. -/
inductive VAction where
  | send_tts_start (messageId : Option Nat)
  | send_tts_audio (messageId : Option Nat) (unitIdx : Nat) (text : List Char)
  | send_tts_complete (messageId : Option Nat)
  | send_error
  | wake_set_speaking (b : Bool)
  | wake_set_listening
deriving Repr, DecidableEq

/-- The per-sentence loop of `handle_synthesize` (server.py lines 210-235)
together with the `except` clause (lines 237-242).  For each unit, in
order: apply the externally scheduled `stop_speaking` effect, check the
cancellation flag (break), filter markdown (skip on `None`), synthesize
(an engine exception emits one error event and abandons the remaining
units), skip empty audio, else emit the audio event.  Returns the emitted
actions, the filter state, and the speaking flag as left by the loop. -/
def synthLoop (mid : Option Nat) (tts : Nat → TTSOutcome) (stops : Nat → Bool) :
    Nat → FilterState → Bool → List (List Char) →
      List VAction × FilterState × Bool
  | _, fs, speaking, [] => ([], fs, speaking)
  | idx, fs, speaking, u :: rest =>
    let speaking' := if stops idx then false else speaking
    if speaking' = false then ([], fs, false)
    else
      match filter_for_tts fs u with
      | (none, fs') => synthLoop mid tts stops (idx + 1) fs' speaking' rest
      | (some t, fs') =>
        match tts idx with
        | TTSOutcome.exn => ([VAction.send_error], fs', speaking')
        | TTSOutcome.ok size =>
          if size = 0 then synthLoop mid tts stops (idx + 1) fs' speaking' rest
          else
            let r := synthLoop mid tts stops (idx + 1) fs' speaking' rest
            (VAction.send_tts_audio mid idx t :: r.1, r.2)

/-- Result of `handle_synthesize`: the emitted actions, the session state
afterwards, and whether the reset branch of server.py lines 203-205 ran
(recorded explicitly so that its deadness is a provable statement). -/
structure SynthResult where
  actions : List VAction
  session : Session
  didReset : Bool
deriving Repr, DecidableEq

/-- `VoiceSession.handle_synthesize` (server.py lines 168-253).
Early returns (lines 174-189): TTS disabled or muted, or blank text —
emit only the completion event when `isFinal`.  Otherwise (lines 191-199)
record the message id, set speaking, signal the wake-word detector, emit
`tts_start`; inside the `try` (lines 201-235) compare the incoming id with
the just-overwritten `current_message_id` and reset the filter and the
sentencizer if they differ, split the text into sentences, run the loop;
the `finally` (lines 244-253) clears speaking, signals the detector that
speaking ended and to resume listening, and emits `tts_complete` when
`isFinal`. -/
def handle_synthesize (s : Session) (text : List Char) (mid : Option Nat)
    (isFinal : Bool) (tts : Nat → TTSOutcome) (stops : Nat → Bool) :
    SynthResult :=
  if s.tts_enabled = false ∨ s.tts_muted = true then
    ⟨if isFinal then [VAction.send_tts_complete mid] else [], s, false⟩
  else if strip text = [] then
    ⟨if isFinal then [VAction.send_tts_complete mid] else [], s, false⟩
  else
    let s1 : Session := { s with current_message_id := mid, speaking := true }
    let didReset := mid ≠ s1.current_message_id
    let fs0 := if didReset then filterReset else s1.markdown_filter
    let sz0 := if didReset then sentencizer_reset s1.sentencizer else s1.sentencizer
    let sentences := split_into_sentences text
    let lr := synthLoop mid tts stops 0 fs0 s1.speaking sentences
    let s2 : Session :=
      { s1 with speaking := false, markdown_filter := lr.2.1, sentencizer := sz0 }
    ⟨VAction.wake_set_speaking true :: VAction.send_tts_start mid :: lr.1 ++
        [VAction.wake_set_speaking false, VAction.wake_set_listening] ++
        (if isFinal then [VAction.send_tts_complete mid] else []),
      s2, decide didReset⟩

/-- A convenient fully-enabled session with fresh sub-components. -/
def sessionFresh : Session :=
  ⟨true, false, false, none, filterReset, sentencizerDefault⟩

example :
    (handle_synthesize sessionFresh "Hello there everyone.".data (some 3) true
        (fun _ => TTSOutcome.ok 5) (fun _ => false)).actions =
      [VAction.wake_set_speaking true, VAction.send_tts_start (some 3),
       VAction.send_tts_audio (some 3) 0 "Hello there everyone.".data,
       VAction.wake_set_speaking false, VAction.wake_set_listening,
       VAction.send_tts_complete (some 3)] := by decide

example :
    (handle_synthesize sessionFresh "One two. Three four. Five six.".data
        (some 1) false (fun _ => TTSOutcome.ok 5)
        (fun n => decide (n = 1))).actions =
      [VAction.wake_set_speaking true, VAction.send_tts_start (some 1),
       VAction.send_tts_audio (some 1) 0 "One two.".data,
       VAction.wake_set_speaking false, VAction.wake_set_listening] := by decide

/-! ## Auxiliary predicates used by the statements -/

/-- Interleaving of units with whitespace: `WSJoin us l` holds when `l` is
`w0 ++ u1 ++ w1 ++ ... ++ un ++ wn` for whitespace-only blocks `wi`. -/
inductive WSJoin : List (List Char) → List Char → Prop
  | nil (w : List Char) : IsWSl w → WSJoin [] w
  | cons (w u : List Char) (us : List (List Char)) (rest : List Char) :
      IsWSl w → WSJoin us rest → WSJoin (u :: us) (w ++ (u ++ rest))

/-- Strengthened invariant of the markdown-filter flags: the announced
flag always equals the in-block flag, and mermaid implies in-block. -/
def FilterInv (st : FilterState) : Prop :=
  st.code_block_announced = st.in_code_block ∧
    (st.in_mermaid = true → st.in_code_block = true)

/-! ## C1: the announcement for a block opened but not closed in one chunk -/

/-- Claim C1 evaluated on the code: on a fresh filter the chunk
`"Explanation: ```python"` returns `none` — not the announcement
`"Here's a code snippet."` the specification promises — because
`filter_for_tts` suppresses every chunk that leaves the filter inside a
code block, discarding the announcement `_handle_code_blocks` computed;
the follow-up chunk `"print(1)\n``` done"` behaves as specified,
returning `"done"` with the filter no longer in a code block. -/
theorem C1_announcement_dropped :
    (filter_for_tts filterReset "Explanation: ```python".data).1 = none ∧
    (filter_for_tts (filter_for_tts filterReset "Explanation: ```python".data).2
        "print(1)\n``` done".data).1 = some "done".data ∧
    (filter_for_tts (filter_for_tts filterReset "Explanation: ```python".data).2
        "print(1)\n``` done".data).2.in_code_block = false := by
  refine ⟨by decide, by decide, by decide⟩

/-! ## C2: the reset check in handle_synthesize is dead -/

/-- Claim C2: `handle_synthesize` overwrites `current_message_id` with the
incoming `messageId` before comparing the two (server.py lines 191 and
203), so the guard of the `markdown_filter.reset()` / `sentencizer.reset()`
branch is always false and the resets never execute. -/
theorem C2_reset_check_dead (s : Session) (text : List Char) (mid : Option Nat)
    (isFinal : Bool) (tts : Nat → TTSOutcome) (stops : Nat → Bool) :
    (handle_synthesize s text mid isFinal tts stops).didReset = false := by
  unfold handle_synthesize
  by_cases h1 : s.tts_enabled = false ∨ s.tts_muted = true
  · simp [h1]
  · by_cases h2 : strip text = []
    · simp [h1, h2]
    · simp [h1, h2]

/-! ## C8: early return when disabled, muted, or blank -/

/-- Claim C8: when TTS is disabled or muted or the text strips to nothing,
`handle_synthesize` emits exactly one `tts_complete` event for the message
id when `isFinal` and nothing at all otherwise, performs no further
processing, and leaves the session unchanged. -/
theorem C8_early_return (s : Session) (text : List Char) (mid : Option Nat)
    (isFinal : Bool) (tts : Nat → TTSOutcome) (stops : Nat → Bool)
    (h : s.tts_enabled = false ∨ s.tts_muted = true ∨ strip text = []) :
    handle_synthesize s text mid isFinal tts stops =
      ⟨if isFinal then [VAction.send_tts_complete mid] else [], s, false⟩ := by
  unfold handle_synthesize
  by_cases h1 : s.tts_enabled = false ∨ s.tts_muted = true
  · simp [h1]
  · have h2 : strip text = [] := by tauto
    simp [h1, h2]

/-- Witness for C8 at a concrete muted session and non-blank text. -/
theorem C8_early_return_witness :
    (({ sessionFresh with tts_muted := true } : Session).tts_enabled = false ∨
      ({ sessionFresh with tts_muted := true } : Session).tts_muted = true ∨
      strip "hello".data = []) ∧
    handle_synthesize { sessionFresh with tts_muted := true } "hello".data
        (some 7) true (fun _ => TTSOutcome.ok 1) (fun _ => false) =
      ⟨[VAction.send_tts_complete (some 7)],
        { sessionFresh with tts_muted := true }, false⟩ :=
  ⟨Or.inr (Or.inl rfl),
    C8_early_return _ _ _ _ _ _ (Or.inr (Or.inl rfl))⟩

/-! ## C9: markdown-filter flag invariant -/

theorem handleFences_inv (was_in : Bool) (segs : List (List Char × List Char)) :
    ∀ st : FilterState, FilterInv st → FilterInv (handleFences was_in st segs).2.2 := by
  induction segs with
  | nil => intro st h; exact h
  | cons seg rest ih =>
    intro st h
    obtain ⟨b, lang⟩ := seg
    by_cases hin : st.in_code_block = false
    · rw [handleFences, if_pos hin]
      exact ih _ ⟨rfl, fun _ => rfl⟩
    · rw [handleFences, if_neg hin]
      exact ih _ ⟨rfl, fun hm => by cases hm⟩

theorem handle_code_blocks_inv (st : FilterState) (text : List Char)
    (h : FilterInv st) : FilterInv (handle_code_blocks st text).2 := by
  unfold handle_code_blocks
  by_cases hb : 0 < (text.reverse.takeWhile (· = '`')).length ∧
      (text.reverse.takeWhile (· = '`')).length < 3
  · simp only [hb, if_true, if_pos]
    exact handleFences_inv _ _ _ h
  · simp only [hb, if_false, if_neg]
    exact handleFences_inv _ _ _ h

theorem filter_for_tts_inv (st : FilterState) (text : List Char)
    (h : FilterInv st) : FilterInv (filter_for_tts st text).2 := by
  unfold filter_for_tts
  by_cases he : text = []
  · rw [if_pos he]; exact h
  · rw [if_neg he]
    by_cases hp : st.pending_backticks ≠ []
    · rw [if_pos hp]
      exact handle_code_blocks_inv _ _ h
    · rw [if_neg hp]
      exact handle_code_blocks_inv _ _ h

theorem applyCalls_inv (texts : List (List Char)) :
    ∀ st : FilterState, FilterInv st → FilterInv (applyCalls st texts) := by
  induction texts with
  | nil => intro st h; exact h
  | cons t ts ih => intro st h; exact ih _ (filter_for_tts_inv st t h)

/-- Claim C9: after reset and after every sequence of `filter_for_tts`
calls, `in_mermaid` implies `in_code_block` (stated for the state before
and after one further call), and across any single call the announced
flag drops from true to false exactly when `in_code_block` drops from
true to false (in fact the two flags are always equal on reachable
states). -/
theorem C9_filter_flag_invariant (texts : List (List Char)) (t : List Char) :
    ((applyCalls filterReset texts).in_mermaid &&
        !(applyCalls filterReset texts).in_code_block) = false ∧
    ((filter_for_tts (applyCalls filterReset texts) t).2.in_mermaid &&
        !(filter_for_tts (applyCalls filterReset texts) t).2.in_code_block) = false ∧
    (((applyCalls filterReset texts).code_block_announced &&
        !(filter_for_tts (applyCalls filterReset texts) t).2.code_block_announced) =
      ((applyCalls filterReset texts).in_code_block &&
        !(filter_for_tts (applyCalls filterReset texts) t).2.in_code_block)) := by
  have h0 : FilterInv filterReset := ⟨rfl, fun hm => by cases hm⟩
  have h1 : FilterInv (applyCalls filterReset texts) := applyCalls_inv texts _ h0
  have h2 : FilterInv (filter_for_tts (applyCalls filterReset texts) t).2 :=
    filter_for_tts_inv _ _ h1
  refine ⟨?_, ?_, ?_⟩
  · rcases hm : (applyCalls filterReset texts).in_mermaid with _ | _
    · simp
    · simp [h1.2 hm]
  · rcases hm : (filter_for_tts (applyCalls filterReset texts) t).2.in_mermaid with _ | _
    · simp
    · simp [h2.2 hm]
  · rw [h1.1, h2.1]

/-! ## C7: abbreviation and decimal guards of the boundary scan -/

theorem is_sentence_end_not_mem (c : Char) (buf : List Char)
    (h : ¬ c ∈ SENTENCE_ENDINGS) : is_sentence_end c buf = false := by
  unfold is_sentence_end
  rw [if_pos h]

/-- Claim C7: a candidate `. ! ?` position is rejected when the text up to
and including it is a known abbreviation, or when it is a `.` directly
preceded by a digit; consequently the streamed tokens `"Dr"`, `"."`,
`" Smith arrived."` yield no unit until the full sentence (never a unit at
the `"Dr."` boundary), and `"the value is 3.14 exactly."` comes back as
one unit, unsplit at the decimal point. -/
theorem C7_boundary_rejection :
    (∀ (c : Char) (buf : List Char), c ∈ SENTENCE_ENDINGS →
        is_abbreviation (buf ++ [c]) = true → is_sentence_end c buf = false) ∧
    (∀ (buf : List Char) (d : Char), buf.getLast? = some d → d.isDigit = true →
        is_sentence_end '.' buf = false) ∧
    ((add_token sentencizerDefault "Dr".data).1 = none ∧
      (add_token (add_token sentencizerDefault "Dr".data).2 ".".data).1 = none ∧
      (add_token (add_token (add_token sentencizerDefault "Dr".data).2 ".".data).2
          " Smith arrived.".data).1 = some "Dr. Smith arrived.".data) ∧
    ((add_token sentencizerDefault "the value is 3.14 exactly.".data).1 =
        some "the value is 3.14 exactly.".data ∧
      is_sentence_end '.' "the value is 3".data = false) := by
  refine ⟨?_, ?_, ⟨by decide, by decide, by decide⟩, by decide, by decide⟩
  · intro c buf hc habb
    unfold is_sentence_end
    rw [if_neg (not_not_intro hc), if_pos habb]
  · intro buf d hl hd
    unfold is_sentence_end
    rw [if_neg (not_not_intro (by decide : ('.' : Char) ∈ SENTENCE_ENDINGS))]
    by_cases ha : is_abbreviation (buf ++ ['.']) = true
    · rw [if_pos ha]
    · rw [if_neg ha, if_pos ⟨rfl, d, hl, hd⟩]

/-- Witness for C7 at the `"Dr."` abbreviation. -/
theorem C7_boundary_rejection_witness :
    (('.' : Char) ∈ SENTENCE_ENDINGS ∧ is_abbreviation ("Dr".data ++ ['.']) = true) ∧
      is_sentence_end '.' "Dr".data = false :=
  ⟨⟨by decide, by decide⟩,
    C7_boundary_rejection.1 '.' "Dr".data (by decide) (by decide)⟩

/-! ## C4: forced split at the buffer limit -/

theorem dropWhile_length_le (p : Char → Bool) (l : List Char) :
    (l.dropWhile p).length ≤ l.length := by
  induction l with
  | nil => simp [List.dropWhile]
  | cons c rest ih =>
    rw [List.dropWhile_cons]
    split
    · exact Nat.le_trans ih (Nat.le_succ _)
    · simp

theorem findSentFrom_none (text : List Char)
    (h : ∀ c ∈ text, ¬ c ∈ SENTENCE_ENDINGS) :
    ∀ i, i < text.length → findSentFrom text i = none := by
  intro i
  induction i with
  | zero =>
    intro hi
    have hm : text.getD 0 ' ' ∈ text := by
      rw [List.getD_eq_getElem text ' ' hi]
      exact List.getElem_mem hi
    have hf : is_sentence_end (text[0]?.getD ' ') [] = false := by
      simpa using is_sentence_end_not_mem (text.getD 0 ' ') [] (h _ hm)
    rw [findSentFrom, if_neg (by simp [hf])]
  | succ n ih =>
    intro hi
    have hm : text.getD (n + 1) ' ' ∈ text := by
      rw [List.getD_eq_getElem text ' ' hi]
      exact List.getElem_mem hi
    have hf : is_sentence_end (text[n + 1]?.getD ' ') (text.take (n + 1)) = false := by
      simpa using is_sentence_end_not_mem (text.getD (n + 1) ' ')
        (text.take (n + 1)) (h _ hm)
    rw [findSentFrom, if_neg (by simp [hf])]
    exact ih (Nat.lt_of_succ_lt hi)

theorem find_sentence_boundary_none (text : List Char)
    (h : ∀ c ∈ text, ¬ c ∈ SENTENCE_ENDINGS) :
    find_sentence_boundary text = none := by
  unfold find_sentence_boundary
  rcases hlen : text.length with _ | n
  · rfl
  · exact findSentFrom_none text h n (by omega)

theorem findClauseFrom_none (text : List Char)
    (h : ∀ c ∈ text, ¬ c ∈ CLAUSE_ENDINGS) :
    ∀ i, i < text.length → findClauseFrom text i = none := by
  intro i
  induction i with
  | zero =>
    intro hi
    have hm : text.getD 0 ' ' ∈ text := by
      rw [List.getD_eq_getElem text ' ' hi]
      exact List.getElem_mem hi
    have hd : text[0]?.getD ' ' ∉ CLAUSE_ENDINGS := by
      simpa using h _ hm
    rw [findClauseFrom, if_neg (by simp [hd])]
  | succ n ih =>
    intro hi
    have hm : text.getD (n + 1) ' ' ∈ text := by
      rw [List.getD_eq_getElem text ' ' hi]
      exact List.getElem_mem hi
    have hd : text[n + 1]?.getD ' ' ∉ CLAUSE_ENDINGS := by
      simpa using h _ hm
    rw [findClauseFrom, if_neg (by simp [hd])]
    exact ih (Nat.lt_of_succ_lt hi)

theorem find_clause_boundary_none (text : List Char)
    (h : ∀ c ∈ text, ¬ c ∈ CLAUSE_ENDINGS) :
    find_clause_boundary text = none := by
  unfold find_clause_boundary
  rcases hlen : text.length with _ | n
  · rfl
  · exact findClauseFrom_none text h n (by omega)

theorem lastSpaceIdx_spec : ∀ (l : List Char) (j : Nat),
    lastSpaceIdx l = some j → j < l.length ∧ l.getD j ' ' = ' ' := by
  intro l
  induction l with
  | nil => intro j hj; cases hj
  | cons c rest ih =>
    intro j hj
    rw [lastSpaceIdx] at hj
    rcases hr : lastSpaceIdx rest with _ | j'
    · rw [hr] at hj
      by_cases hc : c = ' '
      · rw [if_pos hc] at hj
        injection hj with hjj
        subst hjj
        exact ⟨Nat.succ_pos _, by simpa using hc⟩
      · rw [if_neg hc] at hj; cases hj
    · rw [hr] at hj
      injection hj with hjj
      subst hjj
      obtain ⟨h1, h2⟩ := ih j' hr
      exact ⟨Nat.succ_lt_succ h1, by simpa using h2⟩

theorem rfind_space_spec (text : List Char) (stop p : Nat)
    (h : rfind_space text stop = some p) :
    p < stop ∧ p < text.length ∧ text.getD p ' ' = ' ' := by
  obtain ⟨h1, h2⟩ := lastSpaceIdx_spec _ _ h
  have hlen : (text.take stop).length = min stop text.length := by simp
  have hps : p < stop := by omega
  have hpl : p < text.length := by omega
  refine ⟨hps, hpl, ?_⟩
  simp only [List.getD, List.get?_eq_getElem?] at h2 ⊢
  rwa [List.getElem?_take_of_lt hps] at h2

theorem lstrip_drop_length (text : List Char) (p : Nat) (hp : p < text.length)
    (hc : text.getD p ' ' = ' ') :
    (lstrip (text.drop p)).length + p < text.length := by
  have hx : text[p] = ' ' := by rwa [List.getD_eq_getElem text ' ' hp] at hc
  have hd : text.drop p = ' ' :: text.drop (p + 1) := by
    rw [List.drop_eq_getElem_cons hp, hx]
  rw [hd]
  have h1 : lstrip (' ' :: text.drop (p + 1)) = lstrip (text.drop (p + 1)) := by
    simp [lstrip, List.dropWhile_cons, isWS]
  rw [h1]
  have h2 := dropWhile_length_le isWS (text.drop (p + 1))
  have h3 : (text.drop (p + 1)).length = text.length - (p + 1) := by simp
  unfold lstrip
  omega

/-- Claim C4 (amended): on a fresh sentencizer, an over-long input with no
sentence or clause punctuation and a space before the limit force-splits
at the last space `p` before `max_buffer_length` whenever `p` is strictly
greater than `min_sentence_length` (the source tests
`last_space > min_sentence_length`, not `>=`); the retained buffer is
`input[p:].lstrip()`, whose length is below `input.length -
min_sentence_length` — but not below `max_buffer_length` in general. -/
theorem C4_force_split (s : StreamingSentencizer) (input : List Char) (p : Nat)
    (hbuf : s.buffer = [])
    (hpunct : ∀ c ∈ input, ¬ c ∈ SENTENCE_ENDINGS ∧ ¬ c ∈ CLAUSE_ENDINGS)
    (hlen : s.max_buffer_length < input.length)
    (hsp : rfind_space input s.max_buffer_length = some p)
    (hmin : s.min_sentence_length < p) :
    (add_token s input).1 = some (strip (input.take p)) ∧
    (add_token s input).2.buffer = lstrip (input.drop p) ∧
    (add_token s input).2.buffer.length + s.min_sentence_length < input.length := by
  have hsb : find_sentence_boundary input = none :=
    find_sentence_boundary_none input (fun c hc => (hpunct c hc).1)
  have hcb : find_clause_boundary input = none :=
    find_clause_boundary_none input (fun c hc => (hpunct c hc).2)
  obtain ⟨hps, hpl, hsp2⟩ := rfind_space_spec input s.max_buffer_length p hsp
  have hforce : add_token_force s input = extractAt s input p := by
    unfold add_token_force
    rw [if_pos hlen]
    simp only [hsp]
    rw [if_pos hmin]
  have hclause : add_token_clause s input = add_token_force s input := by
    unfold add_token_clause
    by_cases hmc : s.min_clause_length ≤ input.length
    · rw [if_pos hmc]
      simp only [hcb]
    · rw [if_neg hmc]
  have hmain : add_token s input = add_token_clause s input := by
    unfold add_token
    rw [hbuf]
    simp only [List.nil_append, hsb]
  rw [hmain, hclause, hforce]
  have hlb := lstrip_drop_length input p hpl hsp2
  refine ⟨rfl, rfl, ?_⟩
  simp only [extractAt]
  omega

/-- Claim C4 as literally stated fails on the code at two points, shown at
concrete inputs: with `min_sentence_length = 3`, `max_buffer_length = 10`
the input `"abc defghijklmno"` satisfies every premise of the claim with
split point exactly `3 >= min_sentence_length`, yet `add_token` yields
nothing (the source requires a strict inequality); and with
`min_sentence_length = 2` the input `"ab cd ef gh ij kl mn op qr st"`
does split, but the retained buffer has length 20, not less than
`max_buffer_length = 10`. -/
theorem C4_counterexample :
    ((∀ c ∈ "abc defghijklmno".data,
        ¬ c ∈ SENTENCE_ENDINGS ∧ ¬ c ∈ CLAUSE_ENDINGS) ∧
      10 < ("abc defghijklmno".data).length ∧
      rfind_space "abc defghijklmno".data 10 = some 3 ∧
      3 ≥ 3 ∧
      (add_token ⟨3, 100, 10, []⟩ "abc defghijklmno".data).1 = none) ∧
    ((add_token ⟨2, 100, 10, []⟩ "ab cd ef gh ij kl mn op qr st".data).1 =
        some "ab cd ef".data ∧
      (add_token ⟨2, 100, 10, []⟩
          "ab cd ef gh ij kl mn op qr st".data).2.buffer.length = 20 ∧
      ¬ (add_token ⟨2, 100, 10, []⟩
          "ab cd ef gh ij kl mn op qr st".data).2.buffer.length < 10) := by
  exact ⟨⟨by decide, by decide, by decide, by decide, by decide⟩,
    by decide, by decide, by decide⟩

/-- Witness for the amended C4 at a concrete configuration and input. -/
theorem C4_force_split_witness :
    ((⟨2, 100, 10, []⟩ : StreamingSentencizer).buffer = [] ∧
      (∀ c ∈ "ab cd ef gh ij kl mn op qr st".data,
        ¬ c ∈ SENTENCE_ENDINGS ∧ ¬ c ∈ CLAUSE_ENDINGS) ∧
      10 < ("ab cd ef gh ij kl mn op qr st".data).length ∧
      rfind_space "ab cd ef gh ij kl mn op qr st".data 10 = some 8 ∧
      2 < 8) ∧
    ((add_token ⟨2, 100, 10, []⟩ "ab cd ef gh ij kl mn op qr st".data).1 =
        some (strip (("ab cd ef gh ij kl mn op qr st".data).take 8)) ∧
      (add_token ⟨2, 100, 10, []⟩
          "ab cd ef gh ij kl mn op qr st".data).2.buffer =
        lstrip (("ab cd ef gh ij kl mn op qr st".data).drop 8) ∧
      (add_token ⟨2, 100, 10, []⟩
          "ab cd ef gh ij kl mn op qr st".data).2.buffer.length + 2 <
        ("ab cd ef gh ij kl mn op qr st".data).length) :=
  ⟨⟨rfl, by decide, by decide, by decide, by decide⟩,
    C4_force_split ⟨2, 100, 10, []⟩ "ab cd ef gh ij kl mn op qr st".data 8
      rfl (by decide) (by decide) (by decide) (by decide)⟩

/-! ## Whitespace decomposition lemmas for strip and lstrip -/

theorem IsWSl_takeWhile (l : List Char) : IsWSl (l.takeWhile isWS) := by
  intro c hc
  exact List.mem_takeWhile_imp hc

theorem lstrip_decomp (l : List Char) : ∃ a, IsWSl a ∧ l = a ++ lstrip l :=
  ⟨l.takeWhile isWS, IsWSl_takeWhile l,
    (List.takeWhile_append_dropWhile isWS l).symm⟩

theorem rstrip_decomp (l : List Char) : ∃ b, IsWSl b ∧ l = rstrip l ++ b := by
  refine ⟨(l.reverse.takeWhile isWS).reverse, ?_, ?_⟩
  · intro c hc
    rw [List.mem_reverse] at hc
    exact List.mem_takeWhile_imp hc
  · calc l = l.reverse.reverse := (List.reverse_reverse l).symm
    _ = (l.reverse.takeWhile isWS ++ l.reverse.dropWhile isWS).reverse := by
        rw [List.takeWhile_append_dropWhile]
    _ = (l.reverse.dropWhile isWS).reverse ++ (l.reverse.takeWhile isWS).reverse := by
        rw [List.reverse_append]
    _ = rstrip l ++ (l.reverse.takeWhile isWS).reverse := rfl

theorem strip_decomp (l : List Char) :
    ∃ a b, IsWSl a ∧ IsWSl b ∧ l = a ++ (strip l ++ b) := by
  obtain ⟨a, ha, hal⟩ := lstrip_decomp l
  obtain ⟨b, hb, hbl⟩ := rstrip_decomp (lstrip l)
  refine ⟨a, b, ha, hb, ?_⟩
  conv_lhs => rw [hal, hbl]
  rfl

theorem IsWSl_of_strip_eq_nil (l : List Char) (h : strip l = []) : IsWSl l := by
  obtain ⟨a, b, ha, hb, hl⟩ := strip_decomp l
  rw [h] at hl
  intro c hc
  rw [hl] at hc
  simp only [List.nil_append, List.mem_append] at hc
  rcases hc with hc | hc
  exacts [ha c hc, hb c hc]

theorem strip_eq_nil_of_IsWSl (l : List Char) (h : IsWSl l) : strip l = [] := by
  have h1 : lstrip l = [] := by
    rw [lstrip, List.dropWhile_eq_nil_iff]
    exact h
  rw [strip, h1]
  rfl

theorem dropWhile_idem (p : Char → Bool) (l : List Char) :
    (l.dropWhile p).dropWhile p = l.dropWhile p := by
  induction l with
  | nil => rfl
  | cons c rest ih =>
    by_cases hc : p c = true
    · rw [List.dropWhile_cons, if_pos hc]
      exact ih
    · rw [List.dropWhile_cons, if_neg hc, List.dropWhile_cons, if_neg hc]

theorem rstrip_idem (l : List Char) : rstrip (rstrip l) = rstrip l := by
  unfold rstrip
  rw [List.reverse_reverse, dropWhile_idem]

theorem lstrip_head_not_ws (l : List Char) :
    ∀ c, (lstrip l).head? = some c → isWS c = false := by
  induction l with
  | nil => intro c hc; cases hc
  | cons a rest ih =>
    intro c hc
    rw [lstrip, List.dropWhile_cons] at hc
    by_cases ha : isWS a = true
    · rw [if_pos ha] at hc
      exact ih c hc
    · rw [if_neg ha] at hc
      have hac : a = c := by
        simpa using hc
      subst hac
      simpa using ha

theorem lstrip_eq_self (l : List Char)
    (h : ∀ c, l.head? = some c → isWS c = false) : lstrip l = l := by
  cases l with
  | nil => rfl
  | cons a rest =>
    rw [lstrip, List.dropWhile_cons, if_neg]
    simp [h a rfl]

theorem strip_idem (l : List Char) : strip (strip l) = strip l := by
  show rstrip (lstrip (rstrip (lstrip l))) = rstrip (lstrip l)
  have hls : lstrip (rstrip (lstrip l)) = rstrip (lstrip l) := by
    rcases hr : rstrip (lstrip l) with _ | ⟨c, t⟩
    · rfl
    · apply lstrip_eq_self
      intro c' hc'
      have hcc : c = c' := by simpa using hc'
      subst hcc
      obtain ⟨b, _, hmb⟩ := rstrip_decomp (lstrip l)
      rw [hr] at hmb
      have hhm : (lstrip l).head? = some c := by rw [hmb]; rfl
      exact lstrip_head_not_ws l c hhm
  rw [hls]
  exact rstrip_idem (lstrip l)

/-! ## C10: one-shot split yields trimmed non-empty units -/

theorem split_ws_aux : ∀ (n : Nat) (text : List Char), text.length ≤ n →
    IsWSl text →
    ((∀ acc prev, IsWSl acc → ∀ q ∈ splitPiece acc prev text, IsWSl q) ∧
      (∀ q ∈ splitSkip text, IsWSl q)) := by
  intro n
  induction n with
  | zero =>
    intro text hlen _
    have ht : text = [] := List.eq_nil_of_length_eq_zero (Nat.le_zero.mp hlen)
    subst ht
    constructor
    · intro acc prev hacc q hq
      rw [splitPiece] at hq
      simp only [List.mem_singleton] at hq
      subst hq
      intro c hc
      rw [List.mem_reverse] at hc
      exact hacc c hc
    · intro q hq
      rw [splitSkip] at hq
      simp only [List.mem_singleton] at hq
      subst hq
      intro c hc
      cases hc
  | succ n ih =>
    intro text hlen hws
    cases text with
    | nil => exact ih [] (by simp) hws
    | cons c rest =>
      have hc : isWS c = true := hws c (by simp)
      have hrest : IsWSl rest := fun x hx => hws x (by simp [hx])
      have hlen' : rest.length ≤ n := by
        simp only [List.length_cons] at hlen
        omega
      have ihr := ih rest hlen' hrest
      constructor
      · intro acc prev hacc q hq
        rw [splitPiece] at hq
        by_cases hcp : (isWS c && decide (prev ∈ SENTENCE_ENDINGS)) = true
        · rw [if_pos hcp] at hq
          rcases List.mem_cons.mp hq with hq | hq
          · subst hq
            intro x hx
            rw [List.mem_reverse] at hx
            exact hacc x hx
          · exact ihr.2 q hq
        · rw [if_neg hcp] at hq
          refine ihr.1 (c :: acc) c ?_ q hq
          intro x hx
          rcases List.mem_cons.mp hx with hx | hx
          · subst hx; exact hc
          · exact hacc x hx
      · intro q hq
        rw [splitSkip, if_pos hc] at hq
        exact ihr.2 q hq

/-- Claim C10: every unit returned by the one-shot `split_into_sentences`
is non-empty with no leading or trailing whitespace, and a whitespace-only
(or empty) input yields the empty list. -/
theorem C10_split_clean (text : List Char) :
    (∀ u ∈ split_into_sentences text, u ≠ [] ∧ strip u = u) ∧
    (IsWSl text → split_into_sentences text = []) := by
  constructor
  · intro u hu
    unfold split_into_sentences at hu
    rw [List.mem_filterMap] at hu
    obtain ⟨a, _, hfa⟩ := hu
    by_cases hsa : strip a = []
    · rw [if_pos hsa] at hfa; cases hfa
    · rw [if_neg hsa] at hfa
      have hau : strip a = u := by simpa using hfa
      subst hau
      exact ⟨hsa, strip_idem a⟩
  · intro hws
    unfold split_into_sentences
    rw [List.filterMap_eq_nil_iff]
    intro a ha
    have haws : IsWSl a :=
      (split_ws_aux text.length text (Nat.le_refl _) hws).1 [] ' '
        (fun c hc => by cases hc) a ha
    rw [if_pos (strip_eq_nil_of_IsWSl a haws)]

/-- Witness for C10 at a concrete input with two sentences and at a
whitespace-only input. -/
theorem C10_split_clean_witness :
    ("ab.".data ∈ split_into_sentences "ab. cd".data ∧
      "ab.".data ≠ [] ∧ strip "ab.".data = "ab.".data) ∧
    (IsWSl "  ".data ∧ split_into_sentences "  ".data = []) :=
  ⟨⟨by decide, (C10_split_clean "ab. cd".data).1 "ab.".data (by decide)⟩,
    by decide, (C10_split_clean "  ".data).2 (by decide)⟩

/-! ## C3: the sentencizer loses only boundary whitespace -/

theorem IsWSl_append (a b : List Char) (ha : IsWSl a) (hb : IsWSl b) :
    IsWSl (a ++ b) := by
  intro c hc
  rcases List.mem_append.mp hc with h | h
  exacts [ha c h, hb c h]

theorem WSJoin_snoc {us : List (List Char)} {pre : List Char}
    (h : WSJoin us pre) (u w1 w2 : List Char) (h1 : IsWSl w1) (h2 : IsWSl w2) :
    WSJoin (us ++ [u]) (pre ++ (w1 ++ (u ++ w2))) := by
  induction h with
  | nil w hw =>
    have hx : WSJoin [u] ((w ++ w1) ++ (u ++ w2)) :=
      WSJoin.cons (w ++ w1) u [] w2 (IsWSl_append w w1 hw h1) (WSJoin.nil w2 h2)
    simpa [List.append_assoc] using hx
  | cons w u' us' rest hw hrec ih =>
    have hx : WSJoin (u' :: (us' ++ [u])) (w ++ (u' ++ (rest ++ (w1 ++ (u ++ w2))))) :=
      WSJoin.cons w u' (us' ++ [u]) (rest ++ (w1 ++ (u ++ w2))) hw ih
    simpa [List.append_assoc] using hx

theorem WSJoin_extend {us : List (List Char)} {pre : List Char}
    (h : WSJoin us pre) (w : List Char) (hw : IsWSl w) : WSJoin us (pre ++ w) := by
  induction h with
  | nil w0 hw0 => exact WSJoin.nil (w0 ++ w) (IsWSl_append _ _ hw0 hw)
  | cons w0 u us' rest hw0 hrec ih =>
    have hx : WSJoin (u :: us') (w0 ++ (u ++ (rest ++ w))) :=
      WSJoin.cons w0 u us' (rest ++ w) hw0 ih
    simpa [List.append_assoc] using hx

/-- Every branch of `add_token` either absorbs the token into the buffer
or extracts `buffer[:b].strip()` retaining `buffer[b:].lstrip()`. -/
theorem add_token_force_char (s : StreamingSentencizer) (buffer : List Char) :
    ((add_token_force s buffer).1 = none ∧
        (add_token_force s buffer).2.buffer = buffer) ∨
    (∃ b, (add_token_force s buffer).1 = some (strip (buffer.take b)) ∧
      (add_token_force s buffer).2.buffer = lstrip (buffer.drop b)) := by
  unfold add_token_force
  split
  · split
    · split
      · exact Or.inr ⟨_, rfl, rfl⟩
      · exact Or.inl ⟨rfl, rfl⟩
    · exact Or.inl ⟨rfl, rfl⟩
  · exact Or.inl ⟨rfl, rfl⟩

theorem add_token_clause_char (s : StreamingSentencizer) (buffer : List Char) :
    ((add_token_clause s buffer).1 = none ∧
        (add_token_clause s buffer).2.buffer = buffer) ∨
    (∃ b, (add_token_clause s buffer).1 = some (strip (buffer.take b)) ∧
      (add_token_clause s buffer).2.buffer = lstrip (buffer.drop b)) := by
  unfold add_token_clause
  split
  · split
    · split
      · exact Or.inr ⟨_, rfl, rfl⟩
      · exact add_token_force_char s buffer
    · exact add_token_force_char s buffer
  · exact add_token_force_char s buffer

theorem add_token_char (s : StreamingSentencizer) (token : List Char) :
    ((add_token s token).1 = none ∧
        (add_token s token).2.buffer = s.buffer ++ token) ∨
    (∃ b, (add_token s token).1 = some (strip ((s.buffer ++ token).take b)) ∧
      (add_token s token).2.buffer = lstrip ((s.buffer ++ token).drop b)) := by
  simp only [add_token]
  split
  · split
    · exact Or.inr ⟨_, rfl, rfl⟩
    · exact add_token_clause_char s (s.buffer ++ token)
  · exact add_token_clause_char s (s.buffer ++ token)

theorem runTokens_interleave : ∀ (tokens : List (List Char))
    (s : StreamingSentencizer) (us0 : List (List Char)) (pre : List Char),
    WSJoin us0 pre →
    ∃ pre', WSJoin (us0 ++ (runTokens s tokens).1) pre' ∧
      pre ++ (s.buffer ++ tokens.flatten) = pre' ++ (runTokens s tokens).2.buffer := by
  intro tokens
  induction tokens with
  | nil =>
    intro s us0 pre h
    refine ⟨pre, by simpa [runTokens] using h, by simp [runTokens]⟩
  | cons t ts ih =>
    intro s us0 pre h
    rcases add_token_char s t with ⟨h1, h2⟩ | ⟨b, h1, h2⟩
    · obtain ⟨pre', hw, he⟩ := ih (add_token s t).2 us0 pre h
      refine ⟨pre', ?_, ?_⟩
      · simp only [runTokens, h1]
        simpa using hw
      · simp only [runTokens]
        rw [h2] at he
        calc pre ++ (s.buffer ++ (t :: ts).flatten)
            = pre ++ ((s.buffer ++ t) ++ ts.flatten) := by
              simp [List.append_assoc]
          _ = pre' ++ (runTokens (add_token s t).2 ts).2.buffer := he
    · rcases h1x : (add_token s t).1 with _ | u0
      · rw [h1x] at h1; cases h1
      set u := strip ((s.buffer ++ t).take b) with hu
      set L := lstrip ((s.buffer ++ t).drop b) with hL
      obtain ⟨a, bb, ha, hbb, hsd⟩ := strip_decomp ((s.buffer ++ t).take b)
      obtain ⟨d, hd, hdd⟩ := lstrip_decomp ((s.buffer ++ t).drop b)
      rw [← hu] at hsd
      rw [← hL] at hdd
      have hws1 : WSJoin (us0 ++ [u]) (pre ++ (a ++ (u ++ (bb ++ d)))) :=
        WSJoin_snoc h u a (bb ++ d) ha (IsWSl_append bb d hbb hd)
      obtain ⟨pre', hw, he⟩ :=
        ih (add_token s t).2 (us0 ++ [u]) (pre ++ (a ++ (u ++ (bb ++ d)))) hws1
      refine ⟨pre', ?_, ?_⟩
      · simp only [runTokens, h1]
        simpa [List.append_assoc] using hw
      · simp only [runTokens]
        rw [h2] at he
        have h3 : s.buffer ++ t = a ++ (u ++ (bb ++ (d ++ L))) := by
          conv_lhs => rw [← List.take_append_drop b (s.buffer ++ t)]
          rw [hsd, hdd]
          simp [List.append_assoc]
        calc pre ++ (s.buffer ++ (t :: ts).flatten)
            = pre ++ ((s.buffer ++ t) ++ ts.flatten) := by
              simp [List.append_assoc]
          _ = (pre ++ (a ++ (u ++ (bb ++ d)))) ++ (L ++ ts.flatten) := by
              rw [h3]; simp [List.append_assoc]
          _ = pre' ++ (runTokens (add_token s t).2 ts).2.buffer := he

/-- Claim C3: feeding any token sequence into a fresh sentencizer (any
configuration) followed by one `flush()` yields units whose concatenation,
up to whitespace at the unit boundaries, is exactly the concatenated
input: the input is the units interleaved with whitespace-only blocks, so
no non-whitespace character is lost or duplicated and order is kept. -/
theorem C3_concat_preserved (msl mcl mbl : Nat) (tokens : List (List Char)) :
    WSJoin (allUnits ⟨msl, mcl, mbl, []⟩ tokens) tokens.flatten := by
  obtain ⟨pre', hw, he⟩ := runTokens_interleave tokens ⟨msl, mcl, mbl, []⟩ [] []
    (WSJoin.nil [] (fun c hc => by cases hc))
  simp only [List.nil_append] at hw he
  simp only [allUnits]
  by_cases hf : strip ((runTokens ⟨msl, mcl, mbl, []⟩ tokens).2).buffer = []
  · have hflush : (flush (runTokens ⟨msl, mcl, mbl, []⟩ tokens).2).1 = none := by
      unfold flush
      rw [if_neg (not_not_intro hf)]
    rw [hflush, he]
    have hwsb := IsWSl_of_strip_eq_nil _ hf
    simpa using WSJoin_extend hw _ hwsb
  · have hflush : (flush (runTokens ⟨msl, mcl, mbl, []⟩ tokens).2).1 =
        some (strip ((runTokens ⟨msl, mcl, mbl, []⟩ tokens).2).buffer) := by
      unfold flush
      rw [if_pos hf]
    obtain ⟨a, bb, ha, hbb, hsd⟩ :=
      strip_decomp ((runTokens ⟨msl, mcl, mbl, []⟩ tokens).2).buffer
    rw [hflush, he]
    have heq : pre' ++ ((runTokens ⟨msl, mcl, mbl, []⟩ tokens).2).buffer =
        pre' ++ (a ++
          (strip ((runTokens ⟨msl, mcl, mbl, []⟩ tokens).2).buffer ++ bb)) := by
      conv_lhs => rw [hsd]
    rw [heq]
    exact WSJoin_snoc hw _ a bb ha hbb

/-! ## C5 and C6: completion and cooperative cancellation -/

/-- Reduction of `handle_synthesize` on the main path (enabled, not muted,
non-blank text): the dead reset branch contributes nothing, the loop runs
from the session's markdown filter, and the `finally` suffix follows. -/
theorem handle_synthesize_run (s : Session) (text : List Char) (mid : Option Nat)
    (isFinal : Bool) (tts : Nat → TTSOutcome) (stops : Nat → Bool)
    (hng : ¬ (s.tts_enabled = false ∨ s.tts_muted = true))
    (htx : ¬ strip text = []) :
    handle_synthesize s text mid isFinal tts stops =
      ⟨VAction.wake_set_speaking true :: VAction.send_tts_start mid ::
          ((synthLoop mid tts stops 0 s.markdown_filter true
              (split_into_sentences text)).1 ++
            ([VAction.wake_set_speaking false, VAction.wake_set_listening] ++
              (if isFinal then [VAction.send_tts_complete mid] else []))),
        { s with
            current_message_id := mid
            speaking := false
            markdown_filter := (synthLoop mid tts stops 0 s.markdown_filter true
              (split_into_sentences text)).2.1 },
        false⟩ := by
  unfold handle_synthesize
  rw [if_neg hng, if_neg htx]
  simp

theorem synthLoop_no_complete (mid : Option Nat) (tts : Nat → TTSOutcome)
    (stops : Nat → Bool) :
    ∀ (units : List (List Char)) (idx : Nat) (fs : FilterState) (sp : Bool)
      (m : Option Nat),
      VAction.send_tts_complete m ∉ (synthLoop mid tts stops idx fs sp units).1 := by
  intro units
  induction units with
  | nil => intro idx fs sp m; simp [synthLoop]
  | cons u rest ih =>
    intro idx fs sp m
    simp only [synthLoop]
    split
    · simp
    · split
      · simp
      · rcases hft : filter_for_tts fs u with ⟨o, fs'⟩
        rcases o with _ | t'
        · simp only [hft]
          exact ih _ _ _ m
        · simp only [hft]
          rcases htts : tts idx with size | _
          · simp only [htts]
            by_cases hz : size = 0
            · rw [if_pos hz]
              exact ih _ _ _ m
            · rw [if_neg hz]
              intro hmem
              rcases List.mem_cons.mp hmem with he | hm
              · cases he
              · exact ih _ _ _ m hm
          · simp only [htts]
            simp

/-- Claim C5: whenever the synthesis flow proper runs (TTS enabled, not
muted, non-blank text) — including runs where the loop stops early on
cancellation or aborts on an engine exception (reported as a single error
event by the loop, never propagated) — the resulting session has the
speaking flag cleared, the emitted actions are the start prefix, the loop
actions (which never contain a completion event), then the wake-word
signals `set_speaking false` and `set_listening`, and a `tts_complete`
event for the message id is emitted if and only if `isFinal` is true. -/
theorem C5_completion (s : Session) (text : List Char) (mid : Option Nat)
    (isFinal : Bool) (tts : Nat → TTSOutcome) (stops : Nat → Bool)
    (hen : s.tts_enabled = true) (hmu : s.tts_muted = false)
    (htx : ¬ strip text = []) :
    (handle_synthesize s text mid isFinal tts stops).session.speaking = false ∧
    (∃ loopActs,
      (handle_synthesize s text mid isFinal tts stops).actions =
        VAction.wake_set_speaking true :: VAction.send_tts_start mid ::
          (loopActs ++
            ([VAction.wake_set_speaking false, VAction.wake_set_listening] ++
              (if isFinal then [VAction.send_tts_complete mid] else []))) ∧
      VAction.send_tts_complete mid ∉ loopActs) ∧
    ((VAction.send_tts_complete mid ∈
        (handle_synthesize s text mid isFinal tts stops).actions) ↔
      isFinal = true) := by
  have hng : ¬ (s.tts_enabled = false ∨ s.tts_muted = true) := by
    rw [hen, hmu]; simp
  rw [handle_synthesize_run s text mid isFinal tts stops hng htx]
  have hnc := synthLoop_no_complete mid tts stops (split_into_sentences text)
    0 s.markdown_filter true mid
  refine ⟨rfl, ⟨_, rfl, hnc⟩, ?_⟩
  cases isFinal with
  | false => simp [hnc]
  | true => simp

/-- Witness for C5 at a concrete session, text, and environment. -/
theorem C5_completion_witness :
    (sessionFresh.tts_enabled = true ∧ sessionFresh.tts_muted = false ∧
      ¬ strip "Hello there everyone.".data = []) ∧
    ((handle_synthesize sessionFresh "Hello there everyone.".data (some 3) true
        (fun _ => TTSOutcome.ok 5) (fun _ => false)).session.speaking = false ∧
    (∃ loopActs,
      (handle_synthesize sessionFresh "Hello there everyone.".data (some 3) true
          (fun _ => TTSOutcome.ok 5) (fun _ => false)).actions =
        VAction.wake_set_speaking true :: VAction.send_tts_start (some 3) ::
          (loopActs ++
            ([VAction.wake_set_speaking false, VAction.wake_set_listening] ++
              (if true then [VAction.send_tts_complete (some 3)] else []))) ∧
      VAction.send_tts_complete (some 3) ∉ loopActs) ∧
    ((VAction.send_tts_complete (some 3) ∈
        (handle_synthesize sessionFresh "Hello there everyone.".data (some 3) true
          (fun _ => TTSOutcome.ok 5) (fun _ => false)).actions) ↔ true = true)) :=
  ⟨⟨rfl, rfl, by decide⟩,
    C5_completion sessionFresh "Hello there everyone.".data (some 3) true
      (fun _ => TTSOutcome.ok 5) (fun _ => false) rfl rfl (by decide)⟩

/-- An audio event for unit `i` can appear in the loop's trace only if the
loop actually reached unit `i`: the unit index is at least the starting
index and no `stop_speaking` effect was scheduled at any checkpoint up to
and including `i`. -/
theorem synthLoop_audio_bound (mid m : Option Nat) (tts : Nat → TTSOutcome)
    (stops : Nat → Bool) :
    ∀ (units : List (List Char)) (idx : Nat) (fs : FilterState) (sp : Bool)
      (i : Nat) (t : List Char),
      VAction.send_tts_audio m i t ∈ (synthLoop mid tts stops idx fs sp units).1 →
      idx ≤ i ∧ ∀ j, idx ≤ j → j ≤ i → stops j = false := by
  intro units
  induction units with
  | nil => intro idx fs sp i t h; simp [synthLoop] at h
  | cons u rest ih =>
    intro idx fs sp i t h
    simp only [synthLoop] at h
    by_cases hstop : stops idx = true
    · simp [hstop] at h
    · have hsf : stops idx = false := by simpa using hstop
      have hred : (if stops idx then false else sp) = sp := by simp [hsf]
      rw [hred] at h
      by_cases hsp : sp = false
      · simp [hsp] at h
      · rw [if_neg hsp] at h
        have step : ∀ fs', VAction.send_tts_audio m i t ∈
            (synthLoop mid tts stops (idx + 1) fs' sp rest).1 →
            idx ≤ i ∧ ∀ j, idx ≤ j → j ≤ i → stops j = false := by
          intro fs' hmem
          obtain ⟨h1, h2⟩ := ih (idx + 1) fs' sp i t hmem
          refine ⟨by omega, ?_⟩
          intro j hj1 hj2
          rcases Nat.eq_or_lt_of_le hj1 with he | hl
          · rw [← he]; exact hsf
          · exact h2 j (by omega) hj2
        rcases hft : filter_for_tts fs u with ⟨o, fs'⟩
        simp only [hft] at h
        rcases o with _ | t'
        · exact step fs' h
        · rcases htts : tts idx with size | _
          · simp only [htts] at h
            by_cases hz : size = 0
            · rw [if_pos hz] at h
              exact step fs' h
            · rw [if_neg hz] at h
              rcases List.mem_cons.mp h with he | hm
              · injection he with e1 e2 e3
                subst e2
                refine ⟨Nat.le_refl _, ?_⟩
                intro j hj1 hj2
                have hji : j = i := by omega
                rw [hji]; exact hsf
              · exact step fs' hm
          · simp only [htts] at h
            simp at h

/-- Claim C6: if a `stop_speaking` effect is scheduled at checkpoint `k`
(so the speaking flag reads false there), then no `tts_audio` event for
unit `k` or any later unit is ever emitted by `handle_synthesize`: the
loop halts at the checkpoint before processing that unit. -/
theorem C6_stop_halts (s : Session) (text : List Char) (mid : Option Nat)
    (isFinal : Bool) (tts : Nat → TTSOutcome) (stops : Nat → Bool)
    (k i : Nat) (hk : stops k = true) (hki : k ≤ i) (m : Option Nat)
    (t : List Char) :
    VAction.send_tts_audio m i t ∉
      (handle_synthesize s text mid isFinal tts stops).actions := by
  intro hmem
  by_cases h1 : s.tts_enabled = false ∨ s.tts_muted = true
  · unfold handle_synthesize at hmem
    rw [if_pos h1] at hmem
    cases isFinal <;> simp at hmem
  · by_cases h2 : strip text = []
    · unfold handle_synthesize at hmem
      rw [if_neg h1, if_pos h2] at hmem
      cases isFinal <;> simp at hmem
    · rw [handle_synthesize_run s text mid isFinal tts stops h1 h2] at hmem
      rcases List.mem_cons.mp hmem with h | hmem
      · cases h
      · rcases List.mem_cons.mp hmem with h | hmem
        · cases h
        · rcases List.mem_append.mp hmem with h | hmem
          · obtain ⟨_, hall⟩ := synthLoop_audio_bound mid m tts stops
              (split_into_sentences text) 0 s.markdown_filter true i t h
            have hks := hall k (Nat.zero_le k) hki
            rw [hk] at hks
            cases hks
          · rcases List.mem_append.mp hmem with h | h
            · simp at h
            · cases isFinal <;> simp at h

/-- Witness for C6: three sentences, a stop scheduled at checkpoint 1; the
audio for the second sentence is never emitted (while the first is). -/
theorem C6_stop_halts_witness :
    ((fun n => decide (n = 1)) 1 = true ∧ (1 : Nat) ≤ 1) ∧
    VAction.send_tts_audio (some 1) 1 "Three four.".data ∉
      (handle_synthesize sessionFresh "One two. Three four. Five six.".data
        (some 1) false (fun _ => TTSOutcome.ok 5)
        (fun n => decide (n = 1))).actions :=
  ⟨⟨rfl, Nat.le_refl 1⟩,
    C6_stop_halts sessionFresh "One two. Three four. Five six.".data (some 1)
      false (fun _ => TTSOutcome.ok 5) (fun n => decide (n = 1)) 1 1 rfl
      (Nat.le_refl 1) (some 1) "Three four.".data⟩
